import Mathlib

/-!
Bitquery-dbc: the suffix matcher and the event pipeline of `src/index.js`.

A shallow embedding of `src/index.js`.

* JavaScript strings are sequences of UTF-16 code units (`JSString`).
* `new RegExp(pattern, "i")` is embedded as a lexer, a parser and a backtracking
  matcher for the fragment of the pattern language the program generates
  (literal characters, identity escapes, `|`, `(?:...)`, `$`).
* The upper-casing table behind the `i` flag is not part of the repository and
  is a parameter (`CaseTable`).
* The SQLite table and the Telegram endpoint are a `World` (table contents and
  the trace of calls) driven by an `Env` that says which calls fail.
-/

namespace Bitquery

/-! ## Strings -/

/-- A JavaScript string: its UTF-16 code units, in order. -/
abbrev JSString := List Nat

/-- UTF-16 code units of one Unicode scalar value. -/
def utf16 (c : Char) : List Nat :=
  if c.toNat < 65536 then [c.toNat]
  else [55296 + (c.toNat - 65536) / 1024, 56320 + (c.toNat - 65536) % 1024]

/-- The JavaScript string written by a literal. -/
def js (s : String) : JSString := s.toList.flatMap utf16

/-- The method `Array.prototype.join(sep)` on an array of strings. -/
def join (sep : JSString) : List JSString → JSString
  | [] => []
  | [x] => x
  | x :: y :: rest => x ++ sep ++ join sep (y :: rest)

/-- ASCII lower-casing of one code unit: `A`..`Z` go to `a`..`z`. -/
def asciiLower (c : Nat) : Nat := if 65 ≤ c ∧ c ≤ 90 then c + 32 else c

/-- ASCII upper-casing of one code unit: `a`..`z` go to `A`..`Z`. -/
def asciiUpper (c : Nat) : Nat := if 97 ≤ c ∧ c ≤ 122 then c - 32 else c

/-- The method `String.prototype.toLowerCase` on the ASCII range; code units outside ASCII are
left as they are, so this is the JavaScript function only for ASCII text. -/
def toLowerCase (s : JSString) : JSString := s.map asciiLower

/-- All code units of the string are ASCII. -/
def isAscii (s : JSString) : Prop := ∀ c ∈ s, c < 128

/-- The canonicalisation of code units used by a regular expression with the `i`
flag and without the `u` flag (ECMAScript `Canonicalize`). The Unicode upper-casing
table is outside the repository; what the language fixes about it is recorded:
ASCII letters are upper-cased, other ASCII code units are unchanged, and a code unit
outside ASCII is never mapped into ASCII. -/
structure CaseTable where
  /-- Canonical form of a code unit. -/
  canon : Nat → Nat
  /-- On ASCII the canonical form is the ASCII upper-case form. -/
  canon_ascii : ∀ c, c < 128 → canon c = asciiUpper c
  /-- A code unit outside ASCII keeps a canonical form outside ASCII. -/
  canon_high : ∀ c, 128 ≤ c → 128 ≤ canon c

/-- The table that upper-cases ASCII letters only. -/
def asciiTable : CaseTable where
  canon := asciiUpper
  canon_ascii := fun _ _ => rfl
  canon_high := fun c h => by unfold asciiUpper; split <;> omega

/-! ## Regular expressions -/

/-- Code units of the pattern syntax. -/
def cBackslash : Nat := 92
/-- Code unit of `(`. -/
def cLParen : Nat := 40
/-- Code unit of `)`. -/
def cRParen : Nat := 41
/-- Code unit of `|`. -/
def cBar : Nat := 124
/-- Code unit of `$`. -/
def cDollar : Nat := 36
/-- Code unit of `?`. -/
def cQuestion : Nat := 63
/-- Code unit of `:`. -/
def cColon : Nat := 58

/-- The fourteen syntax characters `. * + ? ^ $ { } ( ) | [ ] \`, which are also the
members of the character class in `s.replace(/[.*+?^${}()|[\]\\]/g, "\\$&")`. -/
def syntaxChars : List Nat := [46, 42, 43, 63, 94, 36, 123, 125, 40, 41, 124, 91, 93, 92]

/-- Membership in `syntaxChars`. -/
def isSyntaxChar (c : Nat) : Bool := syntaxChars.contains c

/-- The callback `s => s.replace(/[.*+?^${}()|[\]\\]/g, "\\$&")` (line 44): every
syntax character gets a backslash in front. -/
def escapeSuffix (s : JSString) : JSString :=
  s.flatMap fun c => if isSyntaxChar c then [cBackslash, c] else [c]

/-- The pattern text of line 44: the escaped suffixes joined by `|`, wrapped in
`(?:` and `)$`. -/
def suffixPattern (suffixes : List JSString) : JSString :=
  [cLParen, cQuestion, cColon] ++ join [cBar] (suffixes.map escapeSuffix) ++ [cRParen, cDollar]

/-- Tokens of the pattern fragment. -/
inductive Tok where
  | lit (c : Nat)
  | bar
  | dollar
  | groupOpen
  | groupClose
  deriving DecidableEq

/-- Lexer states: what has been read of an escape or of a `(?:`. -/
inductive LexState where
  | normal
  | afterBackslash
  | afterParen
  | afterParenQuestion
  deriving DecidableEq

/-- Lexer of the pattern fragment. `none` is a pattern outside the fragment
(quantifiers, classes, capturing groups, other escapes) or a syntax error. -/
def lexFrom : LexState → JSString → Option (List Tok)
  | .normal, [] => some []
  | _, [] => none
  | .normal, c :: rest =>
    if c = cBackslash then lexFrom .afterBackslash rest
    else if c = cLParen then lexFrom .afterParen rest
    else if c = cRParen then (lexFrom .normal rest).map (Tok.groupClose :: ·)
    else if c = cBar then (lexFrom .normal rest).map (Tok.bar :: ·)
    else if c = cDollar then (lexFrom .normal rest).map (Tok.dollar :: ·)
    else if isSyntaxChar c then none
    else (lexFrom .normal rest).map (Tok.lit c :: ·)
  | .afterBackslash, c :: rest =>
    if isSyntaxChar c then (lexFrom .normal rest).map (Tok.lit c :: ·) else none
  | .afterParen, c :: rest =>
    if c = cQuestion then lexFrom .afterParenQuestion rest else none
  | .afterParenQuestion, c :: rest =>
    if c = cColon then (lexFrom .normal rest).map (Tok.groupOpen :: ·) else none

/-- Abstract syntax of the pattern fragment. -/
inductive Re where
  | empty
  | char (c : Nat)
  | eol
  | seq (a b : Re)
  | alt (a b : Re)
  deriving DecidableEq

/-- A disjunction being parsed: the finished alternatives, latest first, and the
alternative under construction. -/
abbrev Frame := List Re × Re

/-- The disjunction of a finished frame: `a1 | (a2 | (... | current))`. -/
def closeFrame (f : Frame) : Re := f.1.foldl (fun acc a => Re.alt a acc) f.2

/-- Parser of the pattern fragment, with the stack of open groups. -/
def parseToks : List Frame → List Tok → Option Re
  | [f], [] => some (closeFrame f)
  | _, [] => none
  | [], _ :: _ => none
  | (alts, cur) :: st, .lit c :: ts => parseToks ((alts, Re.seq cur (Re.char c)) :: st) ts
  | (alts, cur) :: st, .dollar :: ts => parseToks ((alts, Re.seq cur Re.eol) :: st) ts
  | (alts, cur) :: st, .bar :: ts => parseToks ((cur :: alts, Re.empty) :: st) ts
  | f :: st, .groupOpen :: ts => parseToks (([], Re.empty) :: f :: st) ts
  | [_], .groupClose :: _ => none
  | f :: (alts, cur) :: st, .groupClose :: ts =>
    parseToks ((alts, Re.seq cur (closeFrame f)) :: st) ts

/-- A compiled regular expression: the pattern and the `i` flag. -/
structure RegExp where
  /-- The parsed pattern. -/
  re : Re
  /-- The `i` flag. -/
  ignoreCase : Bool
  deriving DecidableEq

/-- Flags accepted by the embedding: none, or `i`. -/
def parseFlags (flags : JSString) : Option Bool :=
  if flags = [] then some false else if flags = [105] then some true else none

/-- The constructor `new RegExp(pattern, flags)`; `none` is a `SyntaxError` or a
pattern outside the fragment. -/
def RegExp.create (pattern flags : JSString) : Option RegExp :=
  match lexFrom .normal pattern, parseFlags flags with
  | some toks, some ic =>
    match parseToks [([], Re.empty)] toks with
    | some re => some ⟨re, ic⟩
    | none => none
  | _, _ => none

/-- Comparison of an input code unit with a pattern character. -/
def charMatches (T : CaseTable) (ignoreCase : Bool) (x c : Nat) : Bool :=
  if ignoreCase then T.canon x == T.canon c else x == c

/-- Backtracking matcher: all the inputs that can remain after the pattern has
matched a prefix of `s`, in priority order. `$` has no multiline flag and matches
only at the end of the input. -/
def Re.run (T : CaseTable) (ic : Bool) : Re → JSString → List JSString
  | .empty, s => [s]
  | .char _, [] => []
  | .char c, x :: xs => if charMatches T ic x c then [xs] else []
  | .eol, s => if s.isEmpty then [s] else []
  | .seq a b, s => (a.run T ic s).flatMap (b.run T ic)
  | .alt a b, s => a.run T ic s ++ b.run T ic s

/-- Whether the pattern matches starting at the head of `s`. -/
def Re.matchesAt (T : CaseTable) (ic : Bool) (re : Re) (s : JSString) : Bool :=
  !(re.run T ic s).isEmpty

/-- Search for a match at every start position, from the first to the end of the
input included. -/
def Re.search (T : CaseTable) (ic : Bool) (re : Re) : JSString → Bool
  | [] => re.matchesAt T ic []
  | x :: xs => re.matchesAt T ic (x :: xs) || re.search T ic xs

/-- The method `RegExp.prototype.test` of a regular expression without the `g` and
`y` flags. -/
def RegExp.test (T : CaseTable) (r : RegExp) (s : JSString) : Bool :=
  r.re.search T r.ignoreCase s

/-- The suffix list of lines 30-41. -/
def SUFFIXES : List JSString :=
  [js "draft", js "drafted", js "soldraft", js "soldrafted", js "cs2draft",
   js "cs2drafted", js "draftcs2", js "draftedcs2", js "draftsol", js "draftfun"]

/-- The matcher built from a suffix list the way lines 43-46 build it. -/
def suffixRegExp (suffixes : List JSString) : Option RegExp :=
  RegExp.create (suffixPattern suffixes) (js "i")

set_option maxRecDepth 100000 in
/-- The constant `DRAFT_SUFFIX_REGEX` of lines 43-46: the construction succeeds on
the configured suffixes. -/
def DRAFT_SUFFIX_REGEX : RegExp := (suffixRegExp SUFFIXES).get (by decide)

/-! ## Stream events

The shape of an event is the selection set of `QUERY` (lines 72-76). Every position
of it may hold null or be absent, which is `none`: the event itself, `Instruction`,
`Accounts`, an entry of `Accounts`, `Address`, `Transaction`, `Signature`. `Address`
and `Signature` are strings, as the selection set types them. `Block` and `Method`
are selected and never read. -/

/-- One entry of `Instruction.Accounts`. -/
structure AccountNode where
  /-- The field `Address`. -/
  Address : Option JSString
  deriving DecidableEq

/-- The object `obj.Instruction`. -/
structure InstructionNode where
  /-- The field `Accounts`. -/
  Accounts : Option (List (Option AccountNode))
  deriving DecidableEq

/-- The object `obj.Transaction`. -/
structure TransactionNode where
  /-- The field `Signature`. -/
  Signature : Option JSString
  deriving DecidableEq

/-- One element of `data.Solana.Instructions`. -/
structure StreamEvent where
  /-- The field `Instruction`. -/
  Instruction : Option InstructionNode
  /-- The field `Transaction`. -/
  Transaction : Option TransactionNode
  deriving DecidableEq

/-- JavaScript truthiness of a nullable string: present and not empty. -/
def truthy : Option JSString → Bool
  | some s => !s.isEmpty
  | none => false

/-- The expression `v || null` on a nullable string. -/
def orNull (v : Option JSString) : Option JSString := if truthy v then v else none

/-- The expression `v || ""` on a nullable string. -/
def orEmpty (v : Option JSString) : JSString :=
  match v with
  | some s => if truthy (some s) then s else []
  | none => []

/-- String conversion of a nullable string inside a template literal. -/
def toStr : Option JSString → JSString
  | some s => s
  | none => js "null"

/-- The call `.map(a => a.Address)` of line 112: reading `Address` of a null entry
throws a `TypeError`, which is `none`. -/
def mapAddress : List (Option AccountNode) → Option (List (Option JSString))
  | [] => some []
  | none :: _ => none
  | some a :: rest => (mapAddress rest).map (a.Address :: ·)

/-- The address list of line 112:
`(ins?.Accounts || []).map(a => a.Address).filter(Boolean)`; `none` when the callback
of `map` throws. -/
def extractAccounts (obj : StreamEvent) : Option (List JSString) :=
  let ins := obj.Instruction
  let accounts := (ins.bind (·.Accounts)).getD []
  (mapAddress accounts).map fun addresses =>
    addresses.filterMap fun a => if truthy a then a else none

/-- The signature of lines 111 and 114: `(obj.Transaction || {}).Signature || ""`. -/
def extractSignature (obj : StreamEvent) : JSString :=
  orEmpty (obj.Transaction.bind (·.Signature))

/-- The loop of lines 115-122 with an arbitrary test: the accepted addresses are
pushed in order. -/
def collectMatches (test : JSString → Bool) (accounts : List JSString) : List JSString :=
  accounts.foldl (fun triggeredBy addr => if test addr then triggeredBy ++ [addr] else triggeredBy) []

/-! ## The store, the notification endpoint and the handlers -/

/-- The five columns an `INSERT` of the program binds; `id` and `created_at` are
filled in by the database. -/
structure EventRecord where
  /-- Column `mint`. -/
  mint : Option JSString
  /-- Column `pool`. -/
  pool : Option JSString
  /-- Column `signature`. -/
  signature : JSString
  /-- Column `found_by`. -/
  found_by : JSString
  /-- Column `matched_team`. -/
  matched_team : JSString
  deriving DecidableEq

/-- One call that leaves the process, with its outcome: an `INSERT` statement run
on the database, or a call of `sendTelegram` with its text. -/
inductive Effect where
  | insert (r : EventRecord) (ok : Bool)
  | send (text : JSString) (ok : Bool)
  deriving DecidableEq

/-- The table `events` in insertion order, and the trace of calls in call order. -/
structure World where
  /-- Rows of the table `events`. -/
  rows : List EventRecord
  /-- Trace of the calls made so far. -/
  effects : List Effect
  deriving DecidableEq

/-- The environment: whether the call made at a given position of the trace
succeeds. A failing `INSERT` throws; a failing `fetch` rejects. -/
structure Env where
  /-- Whether the `INSERT` made at this position of the trace succeeds. -/
  insertOk : Nat → Bool
  /-- Whether the `fetch` made at this position of the trace succeeds. -/
  fetchOk : Nat → Bool

/-- The records of the `INSERT` statements of a trace, in order. -/
def insertsOf : List Effect → List EventRecord
  | [] => []
  | .insert r _ :: es => r :: insertsOf es
  | .send _ _ :: es => insertsOf es

/-- The texts of the `sendTelegram` calls of a trace, in order. -/
def sendsOf : List Effect → List JSString
  | [] => []
  | .insert _ _ :: es => sendsOf es
  | .send t _ :: es => t :: sendsOf es

/-- The statement `db.prepare("INSERT ...").run(...)`: the row is appended when the
statement succeeds; the result says whether it returned (`true`) or threw. -/
def dbRun (env : Env) (w : World) (r : EventRecord) : World × Bool :=
  let ok := env.insertOk w.effects.length
  ({ rows := if ok then w.rows ++ [r] else w.rows,
     effects := w.effects ++ [Effect.insert r ok] }, ok)

/-- The function `sendTelegram` (lines 92-105): one `fetch`; a failure is caught
inside and the function returns `null` (`false`), it never throws. -/
def sendTelegram (env : Env) (w : World) (text : JSString) : World × Bool :=
  let ok := env.fetchOk w.effects.length
  ({ w with effects := w.effects ++ [Effect.send text ok] }, ok)

/-- The template literal of line 133. -/
def notificationText (mint pool : Option JSString) (signature : JSString)
    (triggeredBy : List JSString) : JSString :=
  js "🔥 <b>Новый DBC токен</b>\n\nMint: <code>" ++ toStr mint
    ++ js "</code>\nPool: <code>" ++ toStr pool
    ++ js "</code>\nTx: <code>" ++ signature
    ++ js "</code>\nMatchedSuffixes: <code>" ++ join (js ",") triggeredBy
    ++ js "</code>"

/-- The function `handleInstruction` (lines 108-148). Whatever is thrown inside the
`try` block is caught at line 145 and the rest of the block is skipped: the
`TypeError` of reading a property of a null event or of a null entry of `Accounts`,
and the error of an `INSERT` that fails. -/
def handleInstruction (T : CaseTable) (env : Env) (w : World) (obj : Option StreamEvent) :
    World :=
  match obj with
  | none => w
  | some obj =>
    match extractAccounts obj with
    | none => w
    | some accounts =>
      let signature := extractSignature obj
      let triggeredBy := collectMatches (DRAFT_SUFFIX_REGEX.test T) accounts
      if triggeredBy.length > 0 then
        let mint := orNull triggeredBy[0]?
        let pool := orNull accounts[0]?
        let (w1, ok) := dbRun env w ⟨mint, pool, signature, join (js ",") triggeredBy, []⟩
        if ok then
          let text := notificationText mint pool signature triggeredBy
          (sendTelegram env w1 text).1
        else w1
      else
        (dbRun env w
          ⟨orNull accounts[0]?, orNull accounts[1]?, signature, js "no-match", []⟩).1

/-- The addresses of a list accepted by `DRAFT_SUFFIX_REGEX`, in list order. -/
def matchedAddresses (T : CaseTable) (accounts : List JSString) : List JSString :=
  accounts.filter (DRAFT_SUFFIX_REGEX.test T)

/-- The record `handleInstruction` binds to its `INSERT`, from the address list and
the signature it has extracted. -/
def recordOf (T : CaseTable) (accounts : List JSString) (signature : JSString) :
    EventRecord :=
  let triggeredBy := collectMatches (DRAFT_SUFFIX_REGEX.test T) accounts
  if triggeredBy.length > 0 then
    ⟨orNull triggeredBy[0]?, orNull accounts[0]?, signature, join (js ",") triggeredBy, []⟩
  else
    ⟨orNull accounts[0]?, orNull accounts[1]?, signature, js "no-match", []⟩

/-- The text `handleInstruction` passes to `sendTelegram` when an address matched. -/
def textOf (T : CaseTable) (accounts : List JSString) (signature : JSString) : JSString :=
  let triggeredBy := collectMatches (DRAFT_SUFFIX_REGEX.test T) accounts
  notificationText (orNull triggeredBy[0]?) (orNull accounts[0]?) signature triggeredBy

/-- The record of an event: `none` when the extraction throws. -/
def eventRecord (T : CaseTable) (obj : Option StreamEvent) : Option EventRecord :=
  match obj with
  | none => none
  | some obj => (extractAccounts obj).map fun accounts =>
      recordOf T accounts (extractSignature obj)

/-- The shapes on which the extraction does not throw: the event is an object and no
entry of `Accounts` is null. -/
def wellShaped : Option StreamEvent → Bool
  | none => false
  | some obj => ((obj.Instruction.bind (·.Accounts)).getD []).all Option.isSome

/-- Running `handleInstruction` on the elements of a list, one after the other. -/
def processAll (T : CaseTable) (env : Env) (w : World) (es : List (Option StreamEvent)) :
    World :=
  es.foldl (fun w i => handleInstruction T env w i) w

/-- The characters that are markup in Telegram's HTML parse mode: `<`, `>`, `&`. -/
def isMarkupChar (c : Nat) : Bool := c == 60 || c == 62 || c == 38

/-- The markup characters of a text, in order. -/
def markupOf (s : JSString) : JSString := s.filter isMarkupChar

/-- The markup characters of the fixed template of line 133: those of its ten tags. -/
def templateMarkup : JSString := markupOf (notificationText (some []) (some []) [] [])

/-- A store and an endpoint that accept every call. -/
def envOk : Env := ⟨fun _ => true, fun _ => true⟩

/-- A store that rejects every `INSERT`, with an endpoint that accepts every call. -/
def envDbDown : Env := ⟨fun _ => false, fun _ => true⟩

/-- An endpoint that rejects every `fetch`, with a store that accepts every `INSERT`. -/
def envNetDown : Env := ⟨fun _ => true, fun _ => false⟩

/-- The empty table with the empty trace. -/
def emptyWorld : World := ⟨[], []⟩

/-- An event with the given addresses, in order, and the given signature. -/
def mkEvent (addresses : List String) (signature : Option String) : StreamEvent :=
  ⟨some ⟨some (addresses.map fun a => some ⟨some (js a)⟩)⟩, some ⟨signature.map js⟩⟩

/-- Build the matcher from a suffix list and test a candidate: `none` when the
construction throws, otherwise the result of `test`. -/
def suffixMatcher (T : CaseTable) (suffixes : List JSString) (candidate : JSString) :
    Option Bool :=
  (suffixRegExp suffixes).map fun r => r.test T candidate

/-! ## Auxiliary definitions for the proofs about the matcher -/

/-- The literal pattern of a suffix appended to `cur`: `((cur c1) c2) ...`. -/
def litSeq (cur : Re) (f : JSString) : Re := f.foldl (fun a c => Re.seq a (Re.char c)) cur

/-- Tokens of the escaped suffixes joined by `|`. -/
def altToks : List JSString → List Tok
  | [] => []
  | [f] => f.map Tok.lit
  | f :: g :: rest => f.map Tok.lit ++ [Tok.bar] ++ altToks (g :: rest)

/-- The frame of the group once the tokens of the joined suffixes have been read. -/
def frameAfter : List Re → List JSString → Frame
  | alts, [] => (alts, Re.empty)
  | alts, [f] => (alts, litSeq Re.empty f)
  | alts, f :: g :: rest => frameAfter (litSeq Re.empty f :: alts) (g :: rest)

/-- The syntax tree of `suffixPattern suffixes`. -/
def suffixAst (suffixes : List JSString) : Re :=
  Re.seq (Re.seq Re.empty (closeFrame (frameAfter [] suffixes))) Re.eol

/-- Two strings of the same length whose code units match pairwise, the first an
input and the second a pattern text. -/
def sameUnder (T : CaseTable) (ic : Bool) : JSString → JSString → Bool
  | [], [] => true
  | x :: xs, c :: cs => charMatches T ic x c && sameUnder T ic xs cs
  | _, _ => false

/-! ## The pattern is parsed as an alternation of literals -/

theorem isSyntaxChar_special (c : Nat)
    (h : c = cBackslash ∨ c = cLParen ∨ c = cRParen ∨ c = cBar ∨ c = cDollar) :
    isSyntaxChar c = true := by
  rcases h with h | h | h | h | h <;> subst h <;> decide

theorem lexFrom_lit (c : Nat) (rest : JSString) (h : isSyntaxChar c = false) :
    lexFrom .normal (c :: rest) = (lexFrom .normal rest).map (Tok.lit c :: ·) := by
  have h1 : c ≠ cBackslash := fun e => by simp [isSyntaxChar_special c (Or.inl e)] at h
  have h2 : c ≠ cLParen := fun e => by
    simp [isSyntaxChar_special c (Or.inr (Or.inl e))] at h
  have h3 : c ≠ cRParen := fun e => by
    simp [isSyntaxChar_special c (Or.inr (Or.inr (Or.inl e)))] at h
  have h4 : c ≠ cBar := fun e => by
    simp [isSyntaxChar_special c (Or.inr (Or.inr (Or.inr (Or.inl e))))] at h
  have h5 : c ≠ cDollar := fun e => by
    simp [isSyntaxChar_special c (Or.inr (Or.inr (Or.inr (Or.inr e))))] at h
  simp [lexFrom, h1, h2, h3, h4, h5, h]

theorem lexFrom_escaped (c : Nat) (rest : JSString) (h : isSyntaxChar c = true) :
    lexFrom .normal (cBackslash :: c :: rest) = (lexFrom .normal rest).map (Tok.lit c :: ·) := by
  simp [lexFrom, h]

theorem lexFrom_escapeSuffix (s rest : JSString) :
    lexFrom .normal (escapeSuffix s ++ rest)
      = (lexFrom .normal rest).map (s.map Tok.lit ++ ·) := by
  induction s with
  | nil => simp [escapeSuffix]
  | cons c s ih =>
    have hcons : escapeSuffix (c :: s)
        = (if isSyntaxChar c then [cBackslash, c] else [c]) ++ escapeSuffix s := by
      simp [escapeSuffix]
    rw [hcons]
    cases hc : isSyntaxChar c with
    | true =>
      simp only [if_true, List.cons_append, List.nil_append]
      rw [lexFrom_escaped c _ hc, ih]
      cases lexFrom .normal rest <;> simp
    | false =>
      simp only [Bool.false_eq_true, if_false, List.cons_append, List.nil_append]
      rw [lexFrom_lit c _ hc, ih]
      cases lexFrom .normal rest <;> simp

theorem lexFrom_bar (rest : JSString) :
    lexFrom .normal (cBar :: rest) = (lexFrom .normal rest).map (Tok.bar :: ·) := by
  simp [lexFrom, cBar, cBackslash, cLParen, cRParen]

theorem lexFrom_join (F : List JSString) (rest : JSString) :
    lexFrom .normal (join [cBar] (F.map escapeSuffix) ++ rest)
      = (lexFrom .normal rest).map (altToks F ++ ·) := by
  induction F with
  | nil => simp [join, altToks]
  | cons f F ih =>
    cases F with
    | nil =>
      simp only [List.map_cons, List.map_nil, join, altToks]
      exact lexFrom_escapeSuffix f rest
    | cons g F =>
      simp only [List.map_cons, join, altToks, List.append_assoc] at ih ⊢
      rw [lexFrom_escapeSuffix]
      simp only [List.singleton_append]
      rw [lexFrom_bar, ih]
      cases lexFrom .normal rest <;> simp

theorem lexFrom_suffixPattern (F : List JSString) :
    lexFrom .normal (suffixPattern F)
      = some (Tok.groupOpen :: (altToks F ++ [Tok.groupClose, Tok.dollar])) := by
  have h := lexFrom_join F [cRParen, cDollar]
  have htail : lexFrom .normal [cRParen, cDollar] = some [Tok.groupClose, Tok.dollar] := by
    decide
  rw [htail] at h
  simp only [suffixPattern, List.cons_append, List.nil_append, List.append_assoc]
  simp only [lexFrom, cLParen, cBackslash, cQuestion, cColon] at h ⊢
  simp [h]

theorem parseToks_lits (alts : List Re) (cur : Re) (st : List Frame) (f : JSString)
    (ts : List Tok) :
    parseToks ((alts, cur) :: st) (f.map Tok.lit ++ ts)
      = parseToks ((alts, litSeq cur f) :: st) ts := by
  induction f generalizing cur with
  | nil => simp [litSeq]
  | cons c f ih =>
    simp only [List.map_cons, List.cons_append, parseToks]
    rw [ih]
    simp [litSeq]

theorem parseToks_altToks (alts : List Re) (st : List Frame) (F : List JSString)
    (ts : List Tok) :
    parseToks ((alts, Re.empty) :: st) (altToks F ++ ts)
      = parseToks (frameAfter alts F :: st) ts := by
  induction F generalizing alts with
  | nil => simp [altToks, frameAfter]
  | cons f F ih =>
    cases F with
    | nil => simp only [altToks, frameAfter]; exact parseToks_lits alts Re.empty st f ts
    | cons g F =>
      simp only [altToks, frameAfter, List.append_assoc]
      rw [parseToks_lits]
      simp only [List.singleton_append, parseToks]
      exact ih (litSeq Re.empty f :: alts)

theorem parseToks_suffixPattern (F : List JSString) :
    parseToks [([], Re.empty)] (Tok.groupOpen :: (altToks F ++ [Tok.groupClose, Tok.dollar]))
      = some (suffixAst F) := by
  simp only [parseToks]
  rw [parseToks_altToks]
  simp [parseToks, suffixAst, closeFrame]

/-- The construction of lines 43-46 succeeds for every suffix list, and the compiled
pattern is the alternation of the literal suffixes followed by `$`. -/
theorem suffixRegExp_eq (F : List JSString) :
    suffixRegExp F = some ⟨suffixAst F, true⟩ := by
  have hflags : parseFlags (js "i") = some true := by decide
  simp [suffixRegExp, RegExp.create, lexFrom_suffixPattern, parseToks_suffixPattern, hflags]

theorem DRAFT_SUFFIX_REGEX_eq : DRAFT_SUFFIX_REGEX = ⟨suffixAst SUFFIXES, true⟩ := by
  have h := suffixRegExp_eq SUFFIXES
  unfold DRAFT_SUFFIX_REGEX
  simp [h]

/-! ## What the compiled pattern matches -/

theorem mem_run_seq (T : CaseTable) (ic : Bool) (a b : Re) (s r : JSString) :
    r ∈ (Re.seq a b).run T ic s ↔ ∃ m, m ∈ a.run T ic s ∧ r ∈ b.run T ic m := by
  simp [Re.run]

theorem mem_run_alt (T : CaseTable) (ic : Bool) (a b : Re) (s r : JSString) :
    r ∈ (Re.alt a b).run T ic s ↔ r ∈ a.run T ic s ∨ r ∈ b.run T ic s := by
  simp [Re.run]

theorem mem_run_char (T : CaseTable) (ic : Bool) (c : Nat) (s r : JSString) :
    r ∈ (Re.char c).run T ic s ↔ ∃ x, s = x :: r ∧ charMatches T ic x c = true := by
  cases s with
  | nil => simp [Re.run]
  | cons x xs =>
    by_cases h : charMatches T ic x c = true
    · simp only [Re.run, h, if_true, List.mem_singleton, List.cons.injEq]
      constructor
      · rintro rfl; exact ⟨x, ⟨rfl, rfl⟩, h⟩
      · rintro ⟨y, ⟨rfl, rfl⟩, _⟩; rfl
    · simp only [Re.run, h, Bool.false_eq_true, if_false, List.not_mem_nil, false_iff]
      rintro ⟨y, hy, hm⟩
      simp only [List.cons.injEq] at hy
      rw [← hy.1] at hm
      exact h hm

theorem mem_run_litSeq (T : CaseTable) (ic : Bool) (cur : Re) (f s r : JSString) :
    r ∈ (litSeq cur f).run T ic s
      ↔ ∃ m, m ∈ cur.run T ic s ∧ ∃ pre, m = pre ++ r ∧ sameUnder T ic pre f = true := by
  induction f generalizing cur with
  | nil =>
    simp only [litSeq, List.foldl_nil]
    constructor
    · intro h; exact ⟨r, h, [], rfl, rfl⟩
    · rintro ⟨m, hm, pre, rfl, hpre⟩
      cases pre with
      | nil => simpa using hm
      | cons x xs => simp [sameUnder] at hpre
  | cons c f ih =>
    have hfold : litSeq cur (c :: f) = litSeq (Re.seq cur (Re.char c)) f := rfl
    rw [hfold, ih]
    constructor
    · rintro ⟨m1, hm1, pre1, rfl, hpre1⟩
      rw [mem_run_seq] at hm1
      obtain ⟨m, hm, hc⟩ := hm1
      rw [mem_run_char] at hc
      obtain ⟨x, rfl, hx⟩ := hc
      exact ⟨_, hm, x :: pre1, rfl, by simp [sameUnder, hx, hpre1]⟩
    · rintro ⟨m, hm, pre, rfl, hpre⟩
      cases pre with
      | nil => simp [sameUnder] at hpre
      | cons x xs =>
        simp only [sameUnder, Bool.and_eq_true] at hpre
        refine ⟨xs ++ r, ?_, xs, rfl, hpre.2⟩
        rw [mem_run_seq]
        exact ⟨_, hm, (mem_run_char T ic c _ _).2 ⟨x, rfl, hpre.1⟩⟩

theorem mem_run_closeFrame (T : CaseTable) (ic : Bool) (alts : List Re) (cur : Re)
    (s r : JSString) :
    r ∈ (closeFrame (alts, cur)).run T ic s
      ↔ r ∈ cur.run T ic s ∨ ∃ a, a ∈ alts ∧ r ∈ a.run T ic s := by
  induction alts generalizing cur with
  | nil => simp [closeFrame]
  | cons a alts ih =>
    have hfold : closeFrame (a :: alts, cur) = closeFrame (alts, Re.alt a cur) := rfl
    rw [hfold, ih, mem_run_alt]
    simp only [List.mem_cons, exists_eq_or_imp]
    tauto

theorem mem_run_frameAfter (T : CaseTable) (ic : Bool) (alts : List Re) (F : List JSString)
    (s r : JSString) :
    r ∈ (closeFrame (frameAfter alts F)).run T ic s
      ↔ (∃ a, a ∈ alts ∧ r ∈ a.run T ic s) ∨ (F = [] ∧ r = s)
        ∨ ∃ f, f ∈ F ∧ ∃ pre, s = pre ++ r ∧ sameUnder T ic pre f = true := by
  have hlit : ∀ f : JSString, r ∈ (litSeq Re.empty f).run T ic s
      ↔ ∃ pre, s = pre ++ r ∧ sameUnder T ic pre f = true := by
    intro f
    rw [mem_run_litSeq]
    simp [Re.run]
  induction F generalizing alts with
  | nil =>
    simp only [frameAfter]
    rw [mem_run_closeFrame]
    simp only [Re.run, List.mem_singleton, List.not_mem_nil, false_and, exists_false,
      or_false, true_and]
    exact or_comm
  | cons f F ih =>
    cases F with
    | nil =>
      simp only [frameAfter]
      rw [mem_run_closeFrame, hlit]
      simp only [List.mem_singleton, exists_eq_left, reduceCtorEq, false_and, false_or]
      exact or_comm
    | cons g F =>
      simp only [frameAfter]
      refine (ih (litSeq Re.empty f :: alts)).trans ?_
      simp only [List.mem_cons, exists_eq_or_imp, hlit, reduceCtorEq, false_and, false_or]
      constructor
      · rintro ((h | h) | h | h)
        · exact Or.inr (Or.inl h)
        · exact Or.inl h
        · exact Or.inr (Or.inr (Or.inl h))
        · exact Or.inr (Or.inr (Or.inr h))
      · rintro (h | h | h | h)
        · exact Or.inl (Or.inr h)
        · exact Or.inl (Or.inl h)
        · exact Or.inr (Or.inl h)
        · exact Or.inr (Or.inr h)

theorem matchesAt_iff (T : CaseTable) (ic : Bool) (re : Re) (s : JSString) :
    re.matchesAt T ic s = true ↔ ∃ r, r ∈ re.run T ic s := by
  unfold Re.matchesAt
  cases h : re.run T ic s with
  | nil => simp
  | cons a l => simp

theorem mem_run_eol (T : CaseTable) (ic : Bool) (s r : JSString) :
    r ∈ Re.eol.run T ic s ↔ s = [] ∧ r = [] := by
  cases s with
  | nil => simp [Re.run]
  | cons x xs => simp [Re.run]

theorem matchesAt_suffixAst (T : CaseTable) (ic : Bool) (F : List JSString) (s : JSString) :
    (suffixAst F).matchesAt T ic s = true
      ↔ (F = [] ∧ s = []) ∨ ∃ f, f ∈ F ∧ sameUnder T ic s f = true := by
  rw [matchesAt_iff]
  have hgrp := mem_run_frameAfter T ic [] F s []
  simp only [List.not_mem_nil, false_and, exists_false, false_or, List.append_nil] at hgrp
  constructor
  · rintro ⟨r, hr⟩
    unfold suffixAst at hr
    rw [mem_run_seq] at hr
    obtain ⟨m, hm, hr⟩ := hr
    rw [mem_run_eol] at hr
    obtain ⟨rfl, rfl⟩ := hr
    rw [mem_run_seq] at hm
    obtain ⟨m0, hm0, hm⟩ := hm
    simp only [Re.run, List.mem_singleton] at hm0
    subst hm0
    rcases hgrp.1 hm with h | ⟨f, hf, pre, rfl, hpre⟩
    · exact Or.inl ⟨h.1, h.2.symm⟩
    · exact Or.inr ⟨f, hf, hpre⟩
  · intro h
    have hmem : [] ∈ (closeFrame (frameAfter [] F)).run T ic s := by
      apply hgrp.2
      rcases h with ⟨hF, hs⟩ | ⟨f, hf, hpre⟩
      · exact Or.inl ⟨hF, hs.symm⟩
      · exact Or.inr ⟨f, hf, s, rfl, hpre⟩
    refine ⟨[], ?_⟩
    unfold suffixAst
    rw [mem_run_seq]
    refine ⟨[], ?_, (mem_run_eol T ic [] []).2 ⟨rfl, rfl⟩⟩
    rw [mem_run_seq]
    exact ⟨s, by simp [Re.run], hmem⟩

theorem search_iff (T : CaseTable) (ic : Bool) (re : Re) (S : JSString) :
    re.search T ic S = true ↔ ∃ tail, tail <:+ S ∧ re.matchesAt T ic tail = true := by
  induction S with
  | nil => simp [Re.search]
  | cons x xs ih =>
    simp only [Re.search, Bool.or_eq_true, ih, List.suffix_cons_iff]
    constructor
    · rintro (h | ⟨t, ht, hm⟩)
      · exact ⟨x :: xs, Or.inl rfl, h⟩
      · exact ⟨t, Or.inr ht, hm⟩
    · rintro ⟨t, rfl | ht, hm⟩
      · exact Or.inl hm
      · exact Or.inr ⟨t, ht, hm⟩

theorem sameUnder_true_iff (T : CaseTable) (a b : JSString) :
    sameUnder T true a b = true ↔ a.map T.canon = b.map T.canon := by
  induction a generalizing b with
  | nil => cases b <;> simp [sameUnder]
  | cons x xs ih =>
    cases b with
    | nil => simp [sameUnder]
    | cons c cs => simp [sameUnder, charMatches, ih]

theorem suffix_map_iff {α β : Type} (g : α → β) (l : List β) (S : List α) :
    l <:+ S.map g ↔ ∃ tail, tail <:+ S ∧ tail.map g = l := by
  constructor
  · rintro ⟨pre, hpre⟩
    obtain ⟨a, b, rfl, -, hb⟩ := List.map_eq_append_iff.1 hpre.symm
    exact ⟨b, ⟨a, rfl⟩, hb⟩
  · rintro ⟨tail, ⟨pre, rfl⟩, rfl⟩
    exact ⟨pre.map g, by simp⟩

/-- The matcher built from `F` accepts `S` exactly when `F` is empty or the
canonical form of `S` ends with the canonical form of a member of `F`. -/
theorem test_suffixAst (T : CaseTable) (F : List JSString) (S : JSString) :
    RegExp.test T ⟨suffixAst F, true⟩ S = true
      ↔ F = [] ∨ ∃ f, f ∈ F ∧ f.map T.canon <:+ S.map T.canon := by
  simp only [RegExp.test, search_iff, matchesAt_suffixAst, sameUnder_true_iff, suffix_map_iff]
  constructor
  · rintro ⟨tail, ht, h | ⟨f, hf, hfe⟩⟩
    · exact Or.inl h.1
    · exact Or.inr ⟨f, hf, tail, ht, hfe⟩
  · rintro (h | ⟨f, hf, tail, ht, hfe⟩)
    · exact ⟨[], List.nil_suffix, Or.inl ⟨h, rfl⟩⟩
    · exact ⟨tail, ht, Or.inr ⟨f, hf, hfe⟩⟩

/-! ## Canonical forms and lower-case forms on ASCII -/

theorem canon_eq_iff_lower (T : CaseTable) (x p : Nat) (hp : p < 128) :
    T.canon x = T.canon p ↔ asciiLower x = asciiLower p := by
  rw [T.canon_ascii p hp]
  by_cases hx : x < 128
  · rw [T.canon_ascii x hx]
    unfold asciiUpper asciiLower
    split_ifs <;> omega
  · have h1 := T.canon_high x (by omega)
    unfold asciiUpper asciiLower
    split_ifs <;> omega

theorem map_canon_eq_iff_lower (T : CaseTable) (a f : JSString) (hf : isAscii f) :
    a.map T.canon = f.map T.canon ↔ toLowerCase a = toLowerCase f := by
  unfold toLowerCase
  induction a generalizing f with
  | nil => cases f <;> simp
  | cons x xs ih =>
    cases f with
    | nil => simp
    | cons c cs =>
      have hc : c < 128 := hf c (List.mem_cons_self c cs)
      have hcs : isAscii cs := fun d hd => hf d (List.mem_cons_of_mem c hd)
      simp only [List.map_cons, List.cons.injEq, canon_eq_iff_lower T x c hc, ih cs hcs]

theorem canon_suffix_iff_lower (T : CaseTable) (f S : JSString) (hf : isAscii f) :
    f.map T.canon <:+ S.map T.canon ↔ toLowerCase f <:+ toLowerCase S := by
  unfold toLowerCase
  rw [suffix_map_iff, suffix_map_iff]
  constructor
  · rintro ⟨tail, ht, h⟩
    exact ⟨tail, ht, (map_canon_eq_iff_lower T tail f hf).1 h⟩
  · rintro ⟨tail, ht, h⟩
    exact ⟨tail, ht, (map_canon_eq_iff_lower T tail f hf).2 h⟩

/-! ## The matcher built from an arbitrary suffix list -/

theorem suffixMatcher_eq (T : CaseTable) (F : List JSString) (S : JSString) :
    suffixMatcher T F S = some (RegExp.test T ⟨suffixAst F, true⟩ S) := by
  simp [suffixMatcher, suffixRegExp_eq]

/-- C2, as stated, fails: built from the empty suffix list the pattern is `(?:)$`,
which accepts every candidate (here `pool` and the empty string) although no member
of the list is a suffix of it; and built from a list holding the empty suffix the
matcher accepts the empty string. -/
theorem suffixMatcher_empty_list_accepts :
    suffixMatcher asciiTable [] (js "pool") = some true
      ∧ (¬ ∃ f, f ∈ ([] : List JSString) ∧ toLowerCase f <:+ toLowerCase (js "pool"))
      ∧ suffixMatcher asciiTable [] (js "") = some true
      ∧ suffixMatcher asciiTable [js ""] (js "") = some true := by
  refine ⟨?_, by simp, ?_, ?_⟩ <;> decide

/-- C2, amended: for every suffix list `F` the construction succeeds, and the matcher
accepts `S` exactly when `F` is empty or the canonical (case-folded) form of `S` ends
with the canonical form of a member of `F`; for ASCII suffixes and candidates that is
`F` empty or the lower-case form of `S` ending with the lower-case form of a member;
the empty string is accepted exactly when `F` is empty or holds the empty suffix. -/
theorem suffixMatcher_spec (T : CaseTable) (F : List JSString) (S : JSString) :
    (suffixMatcher T F S = some true
        ↔ F = [] ∨ ∃ f, f ∈ F ∧ f.map T.canon <:+ S.map T.canon)
      ∧ (suffixMatcher T F S = some true ∨ suffixMatcher T F S = some false)
      ∧ ((∀ f, f ∈ F → isAscii f) → isAscii S →
          (suffixMatcher T F S = some true
            ↔ F = [] ∨ ∃ f, f ∈ F ∧ toLowerCase f <:+ toLowerCase S))
      ∧ (suffixMatcher T F [] = some true ↔ F = [] ∨ [] ∈ F) := by
  have hmain : ∀ S', suffixMatcher T F S' = some true
      ↔ F = [] ∨ ∃ f, f ∈ F ∧ f.map T.canon <:+ S'.map T.canon := by
    intro S'
    rw [suffixMatcher_eq, Option.some.injEq, test_suffixAst]
  refine ⟨hmain S, ?_, ?_, ?_⟩
  · rw [suffixMatcher_eq]
    cases RegExp.test T ⟨suffixAst F, true⟩ S <;> simp
  · intro hF _
    rw [hmain S]
    constructor
    · rintro (h | ⟨f, hf, hs⟩)
      · exact Or.inl h
      · exact Or.inr ⟨f, hf, (canon_suffix_iff_lower T f S (hF f hf)).1 hs⟩
    · rintro (h | ⟨f, hf, hs⟩)
      · exact Or.inl h
      · exact Or.inr ⟨f, hf, (canon_suffix_iff_lower T f S (hF f hf)).2 hs⟩
  · rw [hmain []]
    constructor
    · rintro (h | ⟨f, hf, hs⟩)
      · exact Or.inl h
      · right
        have hnil : f.map T.canon = [] := by simpa using hs
        have : f = [] := by simpa using hnil
        exact this ▸ hf
    · rintro (h | h)
      · exact Or.inl h
      · exact Or.inr ⟨[], h, by simp⟩

theorem isAscii_js_draft : isAscii (js "Draft") := by
  intro c hc
  have h : js "Draft" = [68, 114, 97, 102, 116] := by decide
  rw [h] at hc
  simp only [List.mem_cons, List.mem_singleton, List.not_mem_nil, or_false] at hc
  omega

/-- The amended C2 at the list holding `Draft` and the candidate `xdraft`: the
hypotheses hold and the matcher accepts. -/
theorem suffixMatcher_spec_witness :
    suffixMatcher asciiTable [js "Draft"] (js "xdraft") = some true := by
  have hF : ∀ f, f ∈ [js "Draft"] → isAscii f := by
    intro f hf
    rw [List.mem_singleton] at hf
    exact hf ▸ isAscii_js_draft
  have hS : isAscii (js "xdraft") := by
    intro c hc
    have h : js "xdraft" = [120, 100, 114, 97, 102, 116] := by decide
    rw [h] at hc
    simp only [List.mem_cons, List.mem_singleton, List.not_mem_nil, or_false] at hc
    omega
  exact ((suffixMatcher_spec asciiTable [js "Draft"] (js "xdraft")).2.2.1 hF hS).2
    (Or.inr ⟨js "Draft", List.mem_singleton.2 rfl, by decide⟩)

/-! ## The configured matcher -/

theorem SUFFIXES_ascii : ∀ f, f ∈ SUFFIXES → isAscii f := by
  have h : ∀ f ∈ SUFFIXES, ∀ c ∈ f, c < 128 := by decide
  exact h

theorem SUFFIXES_ne_nil : SUFFIXES ≠ [] := by decide

theorem DRAFT_test_iff (T : CaseTable) (S : JSString) :
    DRAFT_SUFFIX_REGEX.test T S = true
      ↔ ∃ f, f ∈ SUFFIXES ∧ toLowerCase f <:+ toLowerCase S := by
  rw [DRAFT_SUFFIX_REGEX_eq, test_suffixAst]
  constructor
  · rintro (h | ⟨f, hf, hs⟩)
    · exact absurd h SUFFIXES_ne_nil
    · exact ⟨f, hf, (canon_suffix_iff_lower T f S (SUFFIXES_ascii f hf)).1 hs⟩
  · rintro ⟨f, hf, hs⟩
    exact Or.inr ⟨f, hf, (canon_suffix_iff_lower T f S (SUFFIXES_ascii f hf)).2 hs⟩

theorem DRAFT_test_false_iff (T : CaseTable) (S : JSString) :
    DRAFT_SUFFIX_REGEX.test T S = false
      ↔ ¬ ∃ f, f ∈ SUFFIXES ∧ toLowerCase f <:+ toLowerCase S := by
  rw [← DRAFT_test_iff T S]
  simp

/-- C3: for the ten configured suffixes, `DRAFT_SUFFIX_REGEX.test` accepts a candidate
exactly when some trailing part of the candidate equals one of the suffixes once ASCII
letters are lower-cased (the suffixes are ASCII), that is, when the lower-case form of
the candidate ends with a suffix; so it rejects every candidate that has no suffix at
its end, wherever else a suffix occurs; it rejects the empty string, `draftX` and
`draftXpool`, and accepts `xxDRAFTed`. -/
theorem DRAFT_SUFFIX_REGEX_spec (T : CaseTable) (S : JSString) :
    (DRAFT_SUFFIX_REGEX.test T S = true
        ↔ ∃ f, f ∈ SUFFIXES ∧ ∃ tail, tail <:+ S ∧ toLowerCase tail = toLowerCase f)
      ∧ (DRAFT_SUFFIX_REGEX.test T S = true
        ↔ ∃ f, f ∈ SUFFIXES ∧ toLowerCase f <:+ toLowerCase S)
      ∧ (DRAFT_SUFFIX_REGEX.test T S = false
        ↔ ∀ f, f ∈ SUFFIXES → ¬ toLowerCase f <:+ toLowerCase S)
      ∧ DRAFT_SUFFIX_REGEX.test T (js "") = false
      ∧ DRAFT_SUFFIX_REGEX.test T (js "draftX") = false
      ∧ DRAFT_SUFFIX_REGEX.test T (js "draftXpool") = false
      ∧ DRAFT_SUFFIX_REGEX.test T (js "xxDRAFTed") = true := by
  refine ⟨?_, DRAFT_test_iff T S, ?_, ?_, ?_, ?_, ?_⟩
  · rw [DRAFT_test_iff]
    unfold toLowerCase
    simp only [suffix_map_iff]
  · rw [DRAFT_test_false_iff]
    simp
  · rw [DRAFT_test_false_iff]; decide
  · rw [DRAFT_test_false_iff]; decide
  · rw [DRAFT_test_false_iff]; decide
  · rw [DRAFT_test_iff]; decide

/-! ## The handler -/

theorem collectMatches_eq_filter (test : JSString → Bool) (accounts : List JSString) :
    collectMatches test accounts = accounts.filter test := by
  have h : ∀ (l acc : List JSString),
      l.foldl (fun triggeredBy addr => if test addr then triggeredBy ++ [addr] else triggeredBy)
        acc = acc ++ l.filter test := by
    intro l
    induction l with
    | nil => simp
    | cons a l ih =>
      intro acc
      simp only [List.foldl_cons, ih, List.filter_cons]
      cases test a <;> simp
  simpa [collectMatches] using h accounts []

theorem collectMatches_eq_matched (T : CaseTable) (accounts : List JSString) :
    collectMatches (DRAFT_SUFFIX_REGEX.test T) accounts = matchedAddresses T accounts :=
  collectMatches_eq_filter _ _

theorem mapAddress_isSome_iff (l : List (Option AccountNode)) :
    (mapAddress l).isSome = true ↔ ∀ a, a ∈ l → a ≠ none := by
  induction l with
  | nil => simp [mapAddress]
  | cons a l ih =>
    cases a with
    | none => simp [mapAddress]
    | some a =>
      simp only [mapAddress, Option.isSome_map', ih, List.mem_cons]
      constructor
      · rintro h b (rfl | hb)
        · simp
        · exact h b hb
      · intro h b hb
        exact h b (Or.inr hb)

theorem wellShaped_iff (obj : StreamEvent) :
    wellShaped (some obj) = true ↔ ∃ accounts, extractAccounts obj = some accounts := by
  unfold wellShaped extractAccounts
  simp only [List.all_eq_true]
  have h := mapAddress_isSome_iff ((obj.Instruction.bind (·.Accounts)).getD [])
  constructor
  · intro hall
    have hs : (mapAddress ((obj.Instruction.bind (·.Accounts)).getD [])).isSome = true :=
      h.2 (fun a ha hn => by have := hall a ha; simp [hn] at this)
    obtain ⟨l, hl⟩ := Option.isSome_iff_exists.1 hs
    exact ⟨_, by rw [hl]; rfl⟩
  · rintro ⟨accounts, hacc⟩ a ha
    have hs : (mapAddress ((obj.Instruction.bind (·.Accounts)).getD [])).isSome = true := by
      cases hmap : mapAddress ((obj.Instruction.bind (·.Accounts)).getD []) with
      | none => simp [hmap] at hacc
      | some l => rfl
    have := h.1 hs a ha
    cases a with
    | none => exact absurd rfl this
    | some a => rfl

theorem eventRecord_some (T : CaseTable) (obj : StreamEvent) (accounts : List JSString)
    (hacc : extractAccounts obj = some accounts) :
    eventRecord T (some obj) = some (recordOf T accounts (extractSignature obj)) := by
  simp [eventRecord, hacc]

theorem eventRecord_isSome_iff (T : CaseTable) (obj : Option StreamEvent) :
    (eventRecord T obj).isSome = true ↔ wellShaped obj = true := by
  cases obj with
  | none => simp [eventRecord, wellShaped]
  | some obj =>
    rw [wellShaped_iff]
    cases hacc : extractAccounts obj with
    | none => simp [eventRecord, hacc]
    | some accounts => simp [eventRecord, hacc]

/-- A `TypeError` in the extraction leaves the table and the trace as they were. -/
theorem handleInstruction_of_throw (T : CaseTable) (env : Env) (w : World)
    (obj : Option StreamEvent) (h : eventRecord T obj = none) :
    handleInstruction T env w obj = w := by
  cases obj with
  | none => rfl
  | some obj =>
    cases hacc : extractAccounts obj with
    | none => simp [handleInstruction, hacc]
    | some accounts => simp [eventRecord, hacc] at h

/-- An event with a null entry in `Accounts`, and a null event, on an accepting
store: the `TypeError` is caught and no `INSERT` is run. -/
theorem handleInstruction_null_entry :
    handleInstruction asciiTable envOk emptyWorld
        (some ⟨some ⟨some [some ⟨some (js "Bpoolabc")⟩, none]⟩, none⟩) = emptyWorld
      ∧ handleInstruction asciiTable envOk emptyWorld none = emptyWorld := by
  exact ⟨handleInstruction_of_throw _ _ _ _ (by decide), rfl⟩

/-- After the extraction the handler runs exactly one `INSERT`, which binds `recordOf`;
when the `INSERT` returns and an address matched, it then calls `sendTelegram` once. -/
theorem handleInstruction_eq (T : CaseTable) (env : Env) (w : World) (obj : StreamEvent)
    (accounts : List JSString) (hacc : extractAccounts obj = some accounts) :
    handleInstruction T env w (some obj)
      = if env.insertOk w.effects.length = true then
          if matchedAddresses T accounts ≠ [] then
            ⟨w.rows ++ [recordOf T accounts (extractSignature obj)],
              w.effects ++ [Effect.insert (recordOf T accounts (extractSignature obj)) true,
                Effect.send (textOf T accounts (extractSignature obj))
                  (env.fetchOk (w.effects.length + 1))]⟩
          else ⟨w.rows ++ [recordOf T accounts (extractSignature obj)],
            w.effects ++ [Effect.insert (recordOf T accounts (extractSignature obj)) true]⟩
        else ⟨w.rows,
          w.effects ++ [Effect.insert (recordOf T accounts (extractSignature obj)) false]⟩ := by
  unfold handleInstruction recordOf textOf
  simp only [hacc, collectMatches_eq_matched]
  by_cases hm : matchedAddresses T accounts = []
  · by_cases hok : env.insertOk w.effects.length = true
    · simp [hm, hok, dbRun]
    · simp [hm, hok, dbRun]
  · have hlen : (matchedAddresses T accounts).length > 0 := List.length_pos.2 hm
    by_cases hok : env.insertOk w.effects.length = true
    · simp [hm, hlen, hok, dbRun, sendTelegram]
    · simp [hm, hlen, hok, dbRun]

theorem insertsOf_append (a b : List Effect) :
    insertsOf (a ++ b) = insertsOf a ++ insertsOf b := by
  induction a with
  | nil => rfl
  | cons e a ih => cases e <;> simp [insertsOf, ih]

theorem sendsOf_append (a b : List Effect) :
    sendsOf (a ++ b) = sendsOf a ++ sendsOf b := by
  induction a with
  | nil => rfl
  | cons e a ih => cases e <;> simp [sendsOf, ih]

theorem handleInstruction_inserts (T : CaseTable) (env : Env) (w : World)
    (obj : Option StreamEvent) :
    insertsOf (handleInstruction T env w obj).effects
      = insertsOf w.effects ++ (eventRecord T obj).toList := by
  cases hrec : eventRecord T obj with
  | none => rw [handleInstruction_of_throw T env w obj hrec]; simp
  | some r =>
    cases obj with
    | none => simp [eventRecord] at hrec
    | some obj =>
      cases hacc : extractAccounts obj with
      | none => simp [eventRecord, hacc] at hrec
      | some accounts =>
        rw [eventRecord_some T obj accounts hacc, Option.some.injEq] at hrec
        rw [handleInstruction_eq T env w obj accounts hacc, hrec]
        split_ifs <;> simp [insertsOf_append, insertsOf]

theorem handleInstruction_rows (T : CaseTable) (env : Env) (w : World)
    (obj : Option StreamEvent) :
    (handleInstruction T env w obj).rows
      = if env.insertOk w.effects.length = true then w.rows ++ (eventRecord T obj).toList
        else w.rows := by
  cases hrec : eventRecord T obj with
  | none => rw [handleInstruction_of_throw T env w obj hrec]; simp
  | some r =>
    cases obj with
    | none => simp [eventRecord] at hrec
    | some obj =>
      cases hacc : extractAccounts obj with
      | none => simp [eventRecord, hacc] at hrec
      | some accounts =>
        rw [eventRecord_some T obj accounts hacc, Option.some.injEq] at hrec
        rw [handleInstruction_eq T env w obj accounts hacc, hrec]
        split_ifs <;> simp

theorem handleInstruction_sends (T : CaseTable) (env : Env) (w : World) (obj : StreamEvent)
    (accounts : List JSString) (hacc : extractAccounts obj = some accounts) :
    sendsOf (handleInstruction T env w (some obj)).effects
      = if env.insertOk w.effects.length = true ∧ matchedAddresses T accounts ≠ [] then
          sendsOf w.effects ++ [textOf T accounts (extractSignature obj)]
        else sendsOf w.effects := by
  rw [handleInstruction_eq T env w obj accounts hacc]
  split_ifs <;> simp_all [sendsOf_append, sendsOf]

theorem processAll_cons (T : CaseTable) (env : Env) (w : World) (e : Option StreamEvent)
    (es : List (Option StreamEvent)) :
    processAll T env w (e :: es) = processAll T env (handleInstruction T env w e) es := rfl

theorem processAll_inserts (T : CaseTable) (env : Env) (w : World)
    (es : List (Option StreamEvent)) :
    insertsOf (processAll T env w es).effects
      = insertsOf w.effects ++ es.filterMap (eventRecord T) := by
  induction es generalizing w with
  | nil => simp [processAll]
  | cons e es ih =>
    rw [processAll_cons, ih, handleInstruction_inserts]
    cases h : eventRecord T e <;> simp [List.filterMap_cons, h]

theorem processAll_rows_of_ok (T : CaseTable) (env : Env) (w : World)
    (es : List (Option StreamEvent)) (hok : ∀ n, env.insertOk n = true) :
    (processAll T env w es).rows = w.rows ++ es.filterMap (eventRecord T) := by
  induction es generalizing w with
  | nil => simp [processAll]
  | cons e es ih =>
    rw [processAll_cons, ih, handleInstruction_rows]
    cases h : eventRecord T e <;> simp [List.filterMap_cons, hok, h]

theorem processAll_rows_sublist (T : CaseTable) (env : Env) (w : World)
    (es : List (Option StreamEvent)) :
    ∃ l, l.Sublist (es.filterMap (eventRecord T))
      ∧ (processAll T env w es).rows = w.rows ++ l := by
  induction es generalizing w with
  | nil => exact ⟨[], by simp, by simp [processAll]⟩
  | cons e es ih =>
    obtain ⟨l, hl, hrows⟩ := ih (handleInstruction T env w e)
    rw [processAll_cons, hrows, handleInstruction_rows]
    cases hrec : eventRecord T e with
    | none => exact ⟨l, by simpa [List.filterMap_cons, hrec] using hl, by simp⟩
    | some r =>
      by_cases hok : env.insertOk w.effects.length = true
      · refine ⟨r :: l, ?_, by simp [hok]⟩
        simpa [List.filterMap_cons, hrec] using hl.cons₂ r
      · refine ⟨l, ?_, by simp [hok]⟩
        simpa [List.filterMap_cons, hrec] using hl.cons r

theorem filterMap_eventRecord_length (T : CaseTable) (es : List (Option StreamEvent))
    (hes : ∀ e, e ∈ es → wellShaped e = true) :
    (es.filterMap (eventRecord T)).length = es.length := by
  induction es with
  | nil => rfl
  | cons e es ih =>
    have he := (eventRecord_isSome_iff T e).2 (hes e (List.mem_cons_self e es))
    obtain ⟨r, hr⟩ := Option.isSome_iff_exists.1 he
    simp [List.filterMap_cons, hr, ih (fun x hx => hes x (List.mem_cons_of_mem e hx))]

/-! ## C1: one `INSERT` per event -/

/-- C1, as stated, fails: when the `INSERT` throws, the `catch` of line 145 swallows
the error and the event leaves no row, whether or not an address matched. -/
theorem handleInstruction_failed_insert_no_row :
    (handleInstruction asciiTable envDbDown emptyWorld
        (some (mkEvent ["Bpoolabc", "Cnomatch"] (some "sig1")))).rows = []
      ∧ (handleInstruction asciiTable envDbDown emptyWorld
        (some (mkEvent ["Axyz...draft", "Bpoolabc"] (some "sig2")))).rows = []
      ∧ (processAll asciiTable envDbDown emptyWorld
        [some (mkEvent ["Bpoolabc"] none), some (mkEvent ["Axyz...draft"] none)]).rows.length
          = 0 := by
  refine ⟨?_, ?_, ?_⟩
  · rw [handleInstruction_rows]; rfl
  · rw [handleInstruction_rows]; rfl
  · simp only [processAll, List.foldl_cons, List.foldl_nil, handleInstruction_rows]
    rfl

/-- C1, amended: for every event object without a null entry in `Accounts`, with or
without `Instruction`, `Transaction`, `Accounts`, and whether or not an address
matches, `handleInstruction` runs exactly one `INSERT`; the table gains exactly that
one row when the `INSERT` succeeds and no row when it throws. So `N` such events run
`N` `INSERT` statements, the rows added are some of their records in the order of the
events, and they are all `N` records when every `INSERT` succeeds. -/
theorem handleInstruction_one_insert (T : CaseTable) (env : Env) (w : World)
    (obj : StreamEvent) (es : List (Option StreamEvent))
    (hobj : wellShaped (some obj) = true) (hes : ∀ e, e ∈ es → wellShaped e = true) :
    (∃ r, eventRecord T (some obj) = some r
        ∧ insertsOf (handleInstruction T env w (some obj)).effects = insertsOf w.effects ++ [r]
        ∧ (env.insertOk w.effects.length = true →
            (handleInstruction T env w (some obj)).rows = w.rows ++ [r])
        ∧ (env.insertOk w.effects.length = false →
            (handleInstruction T env w (some obj)).rows = w.rows))
      ∧ (insertsOf (processAll T env w es).effects).length
          = (insertsOf w.effects).length + es.length
      ∧ (∃ l, l.Sublist (es.filterMap (eventRecord T))
          ∧ (processAll T env w es).rows = w.rows ++ l)
      ∧ ((∀ n, env.insertOk n = true) →
          (processAll T env w es).rows = w.rows ++ es.filterMap (eventRecord T)
            ∧ (processAll T env w es).rows.length = w.rows.length + es.length) := by
  obtain ⟨r, hr⟩ := Option.isSome_iff_exists.1 ((eventRecord_isSome_iff T (some obj)).2 hobj)
  refine ⟨⟨r, hr, ?_, ?_, ?_⟩, ?_, processAll_rows_sublist T env w es, ?_⟩
  · rw [handleInstruction_inserts, hr]; rfl
  · intro hok; rw [handleInstruction_rows, hr]; simp [hok]
  · intro hok; rw [handleInstruction_rows]; simp [hok]
  · rw [processAll_inserts, List.length_append, filterMap_eventRecord_length T es hes]
  · intro hok
    have h := processAll_rows_of_ok T env w es hok
    exact ⟨h, by rw [h, List.length_append, filterMap_eventRecord_length T es hes]⟩

set_option maxRecDepth 100000 in
/-- The amended C1 on a store that accepts every `INSERT`: a matching event, an event
with an empty `Accounts` and an event without `Instruction` and `Transaction` give
three rows; on a store that rejects every `INSERT` the event gives none. -/
theorem handleInstruction_one_insert_witness :
    (processAll asciiTable envOk emptyWorld
        [some (mkEvent ["Axyz...draft", "Bpoolabc"] none), some (mkEvent [] none),
          some ⟨none, none⟩]).rows.length = 3
      ∧ (handleInstruction asciiTable envOk emptyWorld (some ⟨none, none⟩)).rows
        = [⟨none, none, js "", js "no-match", js ""⟩]
      ∧ (handleInstruction asciiTable envDbDown emptyWorld (some ⟨none, none⟩)).rows = [] := by
  have hes : ∀ e, e ∈ [some (mkEvent ["Axyz...draft", "Bpoolabc"] none),
      some (mkEvent [] none), some ⟨none, none⟩] → wellShaped e = true := by decide
  have h := handleInstruction_one_insert asciiTable envOk emptyWorld ⟨none, none⟩ _ rfl hes
  have h' := handleInstruction_one_insert asciiTable envDbDown emptyWorld ⟨none, none⟩ []
    rfl (by simp)
  obtain ⟨⟨r, hr, -, hrow, -⟩, -, -, hall⟩ := h
  obtain ⟨⟨r', -, -, -, hrow'⟩, -⟩ := h'
  refine ⟨(hall (fun _ => rfl)).2, ?_, hrow' rfl⟩
  rw [hrow rfl]
  have : r = ⟨none, none, js "", js "no-match", js ""⟩ := by
    have h2 : eventRecord asciiTable (some ⟨none, none⟩)
        = some ⟨none, none, js "", js "no-match", js ""⟩ := by decide
    rw [h2, Option.some.injEq] at hr
    exact hr.symm
  rw [this]; rfl

/-! ## Facts about the extracted addresses and the record -/

theorem extractAccounts_ne_nil (obj : StreamEvent) (accounts : List JSString)
    (hacc : extractAccounts obj = some accounts) (a : JSString) (ha : a ∈ accounts) :
    a ≠ [] := by
  unfold extractAccounts at hacc
  simp only [Option.map_eq_some'] at hacc
  obtain ⟨addresses, -, rfl⟩ := hacc
  simp only [List.mem_filterMap] at ha
  obtain ⟨v, -, hv⟩ := ha
  cases v with
  | none => simp [truthy] at hv
  | some s =>
    by_cases hs : s = []
    · simp [truthy, hs] at hv
    · have : truthy (some s) = true := by simp [truthy, hs]
      simp only [this, if_true, Option.some.injEq] at hv
      exact hv ▸ hs

theorem orNull_getElem? (l : List JSString) (n : Nat) (h : ∀ a, a ∈ l → a ≠ []) :
    orNull l[n]? = l[n]? := by
  unfold orNull
  cases hn : l[n]? with
  | none => simp
  | some a =>
    have hmem : a ∈ l := List.getElem?_mem hn
    have : truthy (some a) = true := by simp [truthy, h a hmem]
    simp [this]

theorem filter_getElem?_zero (test : JSString → Bool) (l : List JSString) :
    (l.filter test)[0]? = l.find? test := by
  induction l with
  | nil => rfl
  | cons a l ih =>
    cases ha : test a with
    | true => simp [List.filter_cons, List.find?_cons, ha]
    | false => simpa [List.filter_cons, List.find?_cons, ha] using ih

theorem matchedAddresses_ne_nil_iff (T : CaseTable) (accounts : List JSString) :
    matchedAddresses T accounts ≠ []
      ↔ ∃ a, a ∈ accounts ∧ DRAFT_SUFFIX_REGEX.test T a = true := by
  unfold matchedAddresses
  rw [Ne, List.filter_eq_nil_iff]
  push_neg
  rfl

theorem matchedAddresses_eq_nil_iff (T : CaseTable) (accounts : List JSString) :
    matchedAddresses T accounts = []
      ↔ ∀ a, a ∈ accounts → DRAFT_SUFFIX_REGEX.test T a = false := by
  unfold matchedAddresses
  rw [List.filter_eq_nil_iff]
  simp

theorem extractSignature_eq (obj : StreamEvent) :
    extractSignature obj = (obj.Transaction.bind (·.Signature)).getD [] := by
  unfold extractSignature orEmpty
  cases h : obj.Transaction.bind (·.Signature) with
  | none => rfl
  | some s =>
    by_cases hs : s = []
    · simp [truthy, hs]
    · simp [truthy, hs]

theorem recordOf_of_match (T : CaseTable) (accounts : List JSString) (signature : JSString)
    (hne : ∀ a, a ∈ accounts → a ≠ []) (h : matchedAddresses T accounts ≠ []) :
    recordOf T accounts signature
      = ⟨accounts.find? (DRAFT_SUFFIX_REGEX.test T), accounts.head?, signature,
          join (js ",") (matchedAddresses T accounts), []⟩ := by
  have hlen : (matchedAddresses T accounts).length > 0 := List.length_pos.2 h
  have hne2 : ∀ a, a ∈ matchedAddresses T accounts → a ≠ [] := fun a ha =>
    hne a (List.mem_filter.1 ha).1
  unfold recordOf
  simp only [collectMatches_eq_matched, hlen, if_true]
  rw [orNull_getElem? _ 0 hne2, orNull_getElem? _ 0 hne, List.head?_eq_getElem?]
  unfold matchedAddresses
  rw [filter_getElem?_zero]

theorem recordOf_of_no_match (T : CaseTable) (accounts : List JSString)
    (signature : JSString) (hne : ∀ a, a ∈ accounts → a ≠ [])
    (h : matchedAddresses T accounts = []) :
    recordOf T accounts signature
      = ⟨accounts[0]?, accounts[1]?, signature, js "no-match", []⟩ := by
  unfold recordOf
  simp only [collectMatches_eq_matched, h, List.length_nil, gt_iff_lt, lt_self_iff_false,
    if_false]
  rw [orNull_getElem? _ 0 hne, orNull_getElem? _ 1 hne]

theorem textOf_eq (T : CaseTable) (accounts : List JSString) (signature : JSString)
    (hne : ∀ a, a ∈ accounts → a ≠ []) :
    textOf T accounts signature
      = notificationText (accounts.find? (DRAFT_SUFFIX_REGEX.test T)) accounts.head?
          signature (matchedAddresses T accounts) := by
  have hne2 : ∀ a, a ∈ matchedAddresses T accounts → a ≠ [] := fun a ha =>
    hne a (List.mem_filter.1 ha).1
  unfold textOf
  simp only [collectMatches_eq_matched]
  rw [orNull_getElem? _ 0 hne2, orNull_getElem? _ 0 hne, List.head?_eq_getElem?]
  unfold matchedAddresses
  rw [filter_getElem?_zero]

theorem row_written_eq (T : CaseTable) (env : Env) (w : World) (obj : Option StreamEvent)
    (r : EventRecord) (h : (handleInstruction T env w obj).rows = w.rows ++ [r]) :
    eventRecord T obj = some r ∧ env.insertOk w.effects.length = true := by
  rw [handleInstruction_rows] at h
  by_cases hok : env.insertOk w.effects.length = true
  · simp only [hok, if_true, List.append_cancel_left_eq] at h
    cases hrec : eventRecord T obj with
    | none => rw [hrec] at h; simp at h
    | some r' =>
      rw [hrec] at h
      simp only [Option.toList_some, List.cons.injEq, and_true] at h
      exact ⟨by rw [h], hok⟩
  · simp only [hok, if_false] at h
    have := congrArg List.length h
    simp at this

theorem row_written_shape (T : CaseTable) (env : Env) (w : World) (obj : Option StreamEvent)
    (r : EventRecord) (h : (handleInstruction T env w obj).rows = w.rows ++ [r]) :
    ∃ ev accounts, obj = some ev ∧ extractAccounts ev = some accounts
      ∧ r = recordOf T accounts (extractSignature ev) := by
  obtain ⟨hrec, -⟩ := row_written_eq T env w obj r h
  cases obj with
  | none => simp [eventRecord] at hrec
  | some ev =>
    cases hacc : extractAccounts ev with
    | none => simp [eventRecord, hacc] at hrec
    | some accounts =>
      rw [eventRecord_some T ev accounts hacc, Option.some.injEq] at hrec
      exact ⟨ev, accounts, rfl, hacc, hrec.symm⟩

theorem join_getLast_suffix (sep : JSString) (l : List JSString) (h : l ≠ []) :
    l.getLast h <:+ join sep l := by
  induction l with
  | nil => exact absurd rfl h
  | cons x l ih =>
    cases l with
    | nil => simp [join]
    | cons y l =>
      have hne : y :: l ≠ [] := by simp
      have h1 : (x :: y :: l).getLast h = (y :: l).getLast hne := by simp
      rw [h1]
      simp only [join]
      exact (ih hne).trans (List.suffix_append _ _)

theorem noMatch_has_no_suffix :
    ∀ f, f ∈ SUFFIXES → ¬ toLowerCase f <:+ toLowerCase (js "no-match") := by
  decide

theorem join_matches_ne_noMatch (T : CaseTable) (l : List JSString) (h : l ≠ [])
    (hall : ∀ a, a ∈ l → DRAFT_SUFFIX_REGEX.test T a = true) :
    join (js ",") l ≠ js "no-match" := by
  intro heq
  obtain ⟨f, hf, hs⟩ := (DRAFT_test_iff T _).1 (hall _ (List.getLast_mem h))
  have hsuf : toLowerCase (l.getLast h) <:+ toLowerCase (join (js ",") l) :=
    (join_getLast_suffix (js ",") l h).map asciiLower
  rw [heq] at hsuf
  exact noMatch_has_no_suffix f hf (hs.trans hsuf)

set_option maxRecDepth 100000 in
theorem accounts_draft_pool :
    extractAccounts (mkEvent ["Axyz...draft", "Bpoolabc"] none)
        = some [js "Axyz...draft", js "Bpoolabc"]
      ∧ extractAccounts (mkEvent ["Axyz...draft", "Bpoolabc"] (some "sig2"))
        = some [js "Axyz...draft", js "Bpoolabc"]
      ∧ extractAccounts (mkEvent ["Axyz...draft", "Bpoolabc"] (some "5sig"))
        = some [js "Axyz...draft", js "Bpoolabc"]
      ∧ DRAFT_SUFFIX_REGEX.test asciiTable (js "Axyz...draft") = true
      ∧ DRAFT_SUFFIX_REGEX.test asciiTable (js "Bpoolabc") = false := by
  refine ⟨by decide, by decide, by decide, ?_, ?_⟩
  · rw [DRAFT_test_iff]; decide
  · rw [DRAFT_test_false_iff]; decide

/-! ## C4 and C9: the notification follows a successful `INSERT` -/

set_option maxRecDepth 100000 in
/-- C4, as stated, fails: the event has a matching address, the `INSERT` throws, and
`sendTelegram` is called zero times. -/
theorem handleInstruction_failed_insert_no_send :
    extractAccounts (mkEvent ["Axyz...draft", "Bpoolabc"] (some "sig2"))
        = some [js "Axyz...draft", js "Bpoolabc"]
      ∧ DRAFT_SUFFIX_REGEX.test asciiTable (js "Axyz...draft") = true
      ∧ sendsOf (handleInstruction asciiTable envDbDown emptyWorld
          (some (mkEvent ["Axyz...draft", "Bpoolabc"] (some "sig2")))).effects = [] := by
  refine ⟨accounts_draft_pool.2.1, accounts_draft_pool.2.2.2.1, ?_⟩
  rw [handleInstruction_sends _ _ _ _ _ accounts_draft_pool.2.1]
  rfl

/-- C4, amended: for every event whose address list is extracted, if the list holds an
address the matcher accepts and the `INSERT` succeeds, `sendTelegram` is called exactly
once; if it holds such an address and the `INSERT` throws, it is called zero times; if
no address is accepted (the empty list included), it is called zero times. -/
theorem handleInstruction_send_count (T : CaseTable) (env : Env) (w : World)
    (obj : StreamEvent) (accounts : List JSString)
    (hacc : extractAccounts obj = some accounts) :
    ((∃ a, a ∈ accounts ∧ DRAFT_SUFFIX_REGEX.test T a = true) →
        env.insertOk w.effects.length = true →
        sendsOf (handleInstruction T env w (some obj)).effects
          = sendsOf w.effects ++ [textOf T accounts (extractSignature obj)])
      ∧ ((∃ a, a ∈ accounts ∧ DRAFT_SUFFIX_REGEX.test T a = true) →
        env.insertOk w.effects.length = false →
        sendsOf (handleInstruction T env w (some obj)).effects = sendsOf w.effects)
      ∧ ((∀ a, a ∈ accounts → DRAFT_SUFFIX_REGEX.test T a = false) →
        sendsOf (handleInstruction T env w (some obj)).effects = sendsOf w.effects) := by
  refine ⟨?_, ?_, ?_⟩
  · intro hm hok
    rw [handleInstruction_sends T env w obj accounts hacc]
    simp [hok, (matchedAddresses_ne_nil_iff T accounts).2 hm]
  · intro _ hok
    rw [handleInstruction_sends T env w obj accounts hacc]
    simp [hok]
  · intro hm
    rw [handleInstruction_sends T env w obj accounts hacc]
    simp [(matchedAddresses_eq_nil_iff T accounts).2 hm]

set_option maxRecDepth 100000 in
/-- The amended C4 at concrete events: a matching event on an accepting store gives one
call, an event without addresses gives none, and a matching event on a failing store
gives none. -/
theorem handleInstruction_send_count_witness :
    (sendsOf (handleInstruction asciiTable envOk emptyWorld
        (some (mkEvent ["Axyz...draft", "Bpoolabc"] none))).effects).length = 1
      ∧ sendsOf (handleInstruction asciiTable envOk emptyWorld
          (some (mkEvent [] none))).effects = []
      ∧ sendsOf (handleInstruction asciiTable envDbDown emptyWorld
          (some (mkEvent ["Axyz...draft", "Bpoolabc"] none))).effects = [] := by
  have hmatch : ∃ a, a ∈ [js "Axyz...draft", js "Bpoolabc"]
      ∧ DRAFT_SUFFIX_REGEX.test asciiTable a = true :=
    ⟨js "Axyz...draft", by simp, accounts_draft_pool.2.2.2.1⟩
  have h1 := (handleInstruction_send_count asciiTable envOk emptyWorld
    (mkEvent ["Axyz...draft", "Bpoolabc"] none) _ accounts_draft_pool.1).1 hmatch rfl
  have h2 := (handleInstruction_send_count asciiTable envOk emptyWorld
    (mkEvent [] none) [] (by decide)).2.2 (by simp)
  have h3 := (handleInstruction_send_count asciiTable envDbDown emptyWorld
    (mkEvent ["Axyz...draft", "Bpoolabc"] none) _ accounts_draft_pool.1).2.1 hmatch rfl
  refine ⟨?_, ?_, ?_⟩
  · rw [h1]; rfl
  · rw [h2]; rfl
  · rw [h3]; rfl

set_option maxRecDepth 100000 in
/-- C9, as stated, fails: for a matching event whose `INSERT` throws, the trace holds
the failed `INSERT` and nothing after it; the notification is not attempted. -/
theorem handleInstruction_failed_insert_trace :
    (handleInstruction asciiTable envDbDown emptyWorld
        (some (mkEvent ["Axyz...draft", "Bpoolabc"] (some "sig2")))).effects
      = [Effect.insert ⟨some (js "Axyz...draft"), some (js "Axyz...draft"), js "sig2",
          js "Axyz...draft", js ""⟩ false]
      ∧ matchedAddresses asciiTable [js "Axyz...draft", js "Bpoolabc"]
        = [js "Axyz...draft"] := by
  refine ⟨?_, ?_⟩
  · rw [handleInstruction_eq _ _ _ _ _ accounts_draft_pool.2.1]
    decide
  · unfold matchedAddresses
    simp [List.filter_cons, accounts_draft_pool.2.2.2.1, accounts_draft_pool.2.2.2.2]

/-- C9, amended: for every event with a matching address the `INSERT` is run first;
when it succeeds the row is added and `sendTelegram` is called next, whatever the
outcome of the send; when it throws nothing is added and `sendTelegram` is not called.
The table after the call does not depend on the outcome of the send. -/
theorem handleInstruction_write_then_notify (T : CaseTable) (env : Env) (w : World)
    (obj : StreamEvent) (accounts : List JSString)
    (hacc : extractAccounts obj = some accounts)
    (hm : ∃ a, a ∈ accounts ∧ DRAFT_SUFFIX_REGEX.test T a = true) :
    (env.insertOk w.effects.length = true →
        (handleInstruction T env w (some obj)).effects
            = w.effects ++ [Effect.insert (recordOf T accounts (extractSignature obj)) true,
                Effect.send (textOf T accounts (extractSignature obj))
                  (env.fetchOk (w.effects.length + 1))]
          ∧ (handleInstruction T env w (some obj)).rows
            = w.rows ++ [recordOf T accounts (extractSignature obj)])
      ∧ (env.insertOk w.effects.length = false →
        (handleInstruction T env w (some obj)).effects
            = w.effects ++ [Effect.insert (recordOf T accounts (extractSignature obj)) false]
          ∧ (handleInstruction T env w (some obj)).rows = w.rows)
      ∧ (∀ fetchOk2 : Nat → Bool,
        (handleInstruction T ⟨env.insertOk, fetchOk2⟩ w (some obj)).rows
          = (handleInstruction T env w (some obj)).rows) := by
  have hne := (matchedAddresses_ne_nil_iff T accounts).2 hm
  refine ⟨?_, ?_, ?_⟩
  · intro hok
    rw [handleInstruction_eq T env w obj accounts hacc]
    simp [hok, hne]
  · intro hok
    rw [handleInstruction_eq T env w obj accounts hacc]
    simp [hok]
  · intro fetchOk2
    rw [handleInstruction_rows, handleInstruction_rows]

set_option maxRecDepth 100000 in
/-- The amended C9 at a matching event: on an accepting store with a failing endpoint
the row is written and the send is attempted after the `INSERT`; on a failing store
no row is written. -/
theorem handleInstruction_write_then_notify_witness :
    (handleInstruction asciiTable envNetDown emptyWorld
        (some (mkEvent ["Axyz...draft", "Bpoolabc"] none))).rows
      = [recordOf asciiTable [js "Axyz...draft", js "Bpoolabc"] (js "")]
      ∧ (handleInstruction asciiTable envNetDown emptyWorld
        (some (mkEvent ["Axyz...draft", "Bpoolabc"] none))).effects
      = [Effect.insert (recordOf asciiTable [js "Axyz...draft", js "Bpoolabc"] (js "")) true,
          Effect.send (textOf asciiTable [js "Axyz...draft", js "Bpoolabc"] (js "")) false]
      ∧ (handleInstruction asciiTable envDbDown emptyWorld
        (some (mkEvent ["Axyz...draft", "Bpoolabc"] none))).rows = [] := by
  have hmatch : ∃ a, a ∈ [js "Axyz...draft", js "Bpoolabc"]
      ∧ DRAFT_SUFFIX_REGEX.test asciiTable a = true :=
    ⟨js "Axyz...draft", by simp, accounts_draft_pool.2.2.2.1⟩
  have h1 := (handleInstruction_write_then_notify asciiTable envNetDown emptyWorld
    (mkEvent ["Axyz...draft", "Bpoolabc"] none) _ accounts_draft_pool.1 hmatch).1 rfl
  have h2 := (handleInstruction_write_then_notify asciiTable envDbDown emptyWorld
    (mkEvent ["Axyz...draft", "Bpoolabc"] none) _ accounts_draft_pool.1 hmatch).2.1 rfl
  exact ⟨h1.2, h1.1, h2.2⟩

/-! ## C5, C6, C7: the record that is written -/

/-- C5: whenever `handleInstruction` writes a record for an event, the address list of
the event was extracted and the `found_by` written is the literal `no-match` exactly
when none of the addresses is accepted by the matcher; and the comma-joined list of
one or more accepted addresses is never `no-match`. -/
theorem found_by_noMatch_iff (T : CaseTable) (env : Env) (w : World)
    (obj : Option StreamEvent) (r : EventRecord)
    (hrow : (handleInstruction T env w obj).rows = w.rows ++ [r]) :
    (∃ ev accounts, obj = some ev ∧ extractAccounts ev = some accounts
        ∧ (r.found_by = js "no-match"
          ↔ ∀ a, a ∈ accounts → DRAFT_SUFFIX_REGEX.test T a = false))
      ∧ (∀ l : List JSString, l ≠ [] → (∀ a, a ∈ l → DRAFT_SUFFIX_REGEX.test T a = true) →
          join (js ",") l ≠ js "no-match") := by
  obtain ⟨ev, accounts, hobj, hacc, hr⟩ := row_written_shape T env w obj r hrow
  refine ⟨⟨ev, accounts, hobj, hacc, ?_⟩, fun l hl hall => join_matches_ne_noMatch T l hl hall⟩
  have hne := extractAccounts_ne_nil ev accounts hacc
  rw [← matchedAddresses_eq_nil_iff]
  by_cases hm : matchedAddresses T accounts = []
  · rw [hr, recordOf_of_no_match T accounts _ hne hm]
    simp [hm]
  · rw [hr, recordOf_of_match T accounts _ hne hm]
    simp only [hm, iff_false]
    exact join_matches_ne_noMatch T _ hm (fun a ha => (List.mem_filter.1 ha).2)

set_option maxRecDepth 100000 in
/-- C5 at two concrete events on an accepting store: a record is written, and its
`found_by` is `no-match` for the event without a match and is not for the other. -/
theorem found_by_noMatch_iff_witness :
    (handleInstruction asciiTable envOk emptyWorld
        (some (mkEvent ["Bpoolabc", "Cnomatch"] none))).rows
        = [⟨some (js "Bpoolabc"), some (js "Cnomatch"), js "", js "no-match", js ""⟩]
      ∧ (handleInstruction asciiTable envOk emptyWorld
          (some (mkEvent ["Axyz...draft"] none))).rows
        = [⟨some (js "Axyz...draft"), some (js "Axyz...draft"), js "", js "Axyz...draft", js ""⟩]
      ∧ (∃ accounts, extractAccounts (mkEvent ["Axyz...draft"] none) = some accounts
          ∧ ¬ ∀ a, a ∈ accounts → DRAFT_SUFFIX_REGEX.test asciiTable a = false) := by
  have h1 : (handleInstruction asciiTable envOk emptyWorld
      (some (mkEvent ["Bpoolabc", "Cnomatch"] none))).rows
      = emptyWorld.rows
        ++ [⟨some (js "Bpoolabc"), some (js "Cnomatch"), js "", js "no-match", js ""⟩] := by
    decide
  have h2 : (handleInstruction asciiTable envOk emptyWorld
      (some (mkEvent ["Axyz...draft"] none))).rows
      = emptyWorld.rows
        ++ [⟨some (js "Axyz...draft"), some (js "Axyz...draft"), js "", js "Axyz...draft",
            js ""⟩] := by
    decide
  refine ⟨h1, h2, ?_⟩
  obtain ⟨ev, accounts, hev, hacc, hiff⟩ :=
    (found_by_noMatch_iff asciiTable envOk emptyWorld _ _ h2).1
  rw [Option.some.injEq] at hev
  subst hev
  refine ⟨accounts, hacc, fun hall => ?_⟩
  have := hiff.2 hall
  revert this
  decide

/-- C6: for every event whose extracted address list holds a matching address, the
record written has `mint` the first matching address in list order, `pool` the first
address of the whole list, `signature` the transaction signature or the empty string
when it is absent, `found_by` all the matching addresses in list order, repeats kept,
joined by a comma, and `matched_team` empty. -/
theorem record_of_match (T : CaseTable) (env : Env) (w : World) (obj : StreamEvent)
    (accounts : List JSString) (r : EventRecord)
    (hacc : extractAccounts obj = some accounts)
    (hm : ∃ a, a ∈ accounts ∧ DRAFT_SUFFIX_REGEX.test T a = true)
    (hrow : (handleInstruction T env w (some obj)).rows = w.rows ++ [r]) :
    r.mint = accounts.find? (DRAFT_SUFFIX_REGEX.test T)
      ∧ r.pool = accounts.head?
      ∧ r.signature = (obj.Transaction.bind (·.Signature)).getD (js "")
      ∧ r.found_by = join (js ",") (accounts.filter (DRAFT_SUFFIX_REGEX.test T))
      ∧ r.matched_team = js "" := by
  obtain ⟨hrec, -⟩ := row_written_eq T env w (some obj) r hrow
  rw [eventRecord_some T obj accounts hacc, Option.some.injEq] at hrec
  rw [← hrec, recordOf_of_match T accounts _ (extractAccounts_ne_nil obj accounts hacc)
    ((matchedAddresses_ne_nil_iff T accounts).2 hm), extractSignature_eq]
  exact ⟨rfl, rfl, rfl, rfl, rfl⟩

set_option maxRecDepth 100000 in
/-- C6 at the accounts `Axyz...draft`, `Bpoolabc`: the record is written on an
accepting store and `mint`, `pool` and `found_by` are all `Axyz...draft`. -/
theorem record_of_match_witness :
    ∃ r, (handleInstruction asciiTable envOk emptyWorld
          (some (mkEvent ["Axyz...draft", "Bpoolabc"] none))).rows = [r]
      ∧ r.mint = some (js "Axyz...draft") ∧ r.pool = some (js "Axyz...draft")
      ∧ r.found_by = js "Axyz...draft" ∧ r.signature = js "" ∧ r.matched_team = js "" := by
  have hmatch : ∃ a, a ∈ [js "Axyz...draft", js "Bpoolabc"]
      ∧ DRAFT_SUFFIX_REGEX.test asciiTable a = true :=
    ⟨js "Axyz...draft", by simp, accounts_draft_pool.2.2.2.1⟩
  have hrow : (handleInstruction asciiTable envOk emptyWorld
      (some (mkEvent ["Axyz...draft", "Bpoolabc"] none))).rows
      = emptyWorld.rows ++ [recordOf asciiTable [js "Axyz...draft", js "Bpoolabc"]
          (extractSignature (mkEvent ["Axyz...draft", "Bpoolabc"] none))] := by
    rw [handleInstruction_rows, eventRecord_some _ _ _ accounts_draft_pool.1]; rfl
  have h := record_of_match asciiTable envOk emptyWorld _ _ _ accounts_draft_pool.1 hmatch hrow
  refine ⟨_, hrow, ?_, ?_, ?_, ?_, h.2.2.2.2⟩
  · rw [h.1]; simp [List.find?_cons, accounts_draft_pool.2.2.2.1]
  · rw [h.2.1]; rfl
  · rw [h.2.2.2.1]
    simp [List.filter_cons, accounts_draft_pool.2.2.2.1, accounts_draft_pool.2.2.2.2, join]
  · rw [h.2.2.1]; rfl

set_option maxRecDepth 100000 in
theorem markupOf_notificationText (m p : Option JSString) (sg : JSString)
    (l : List JSString) :
    markupOf (notificationText m p sg l)
      = [60, 62, 60, 62, 60, 62] ++ markupOf (toStr m) ++ [60, 62, 60, 62]
        ++ markupOf (toStr p) ++ [60, 62, 60, 62] ++ markupOf sg ++ [60, 62, 60, 62]
        ++ markupOf (join (js ",") l) ++ [60, 62] := by
  have h0 : markupOf (js "🔥 <b>Новый DBC токен</b>\n\nMint: <code>")
      = [60, 62, 60, 62, 60, 62] := by decide
  have h1 : markupOf (js "</code>\nPool: <code>") = [60, 62, 60, 62] := by decide
  have h2 : markupOf (js "</code>\nTx: <code>") = [60, 62, 60, 62] := by decide
  have h3 : markupOf (js "</code>\nMatchedSuffixes: <code>") = [60, 62, 60, 62] := by decide
  have h4 : markupOf (js "</code>") = [60, 62] := by decide
  have happ : ∀ a b : JSString, markupOf (a ++ b) = markupOf a ++ markupOf b := by
    intro a b; simp [markupOf]
  unfold notificationText
  simp only [happ, h0, h1, h2, h3, h4]

theorem templateMarkup_eq :
    templateMarkup
      = [60, 62, 60, 62, 60, 62, 60, 62, 60, 62, 60, 62, 60, 62, 60, 62, 60, 62, 60, 62] := by
  unfold templateMarkup
  rw [markupOf_notificationText]
  rfl

set_option maxRecDepth 100000 in
/-- C8, as stated, fails: the fields are interpolated without escaping. For the address
`<b>draft` and the signature `a&b` the text sent holds `<code><b>draft</code>` and
`<code>a&b</code>`, and its markup characters are not those of the fixed template. -/
theorem notification_text_not_escaped :
    sendsOf (handleInstruction asciiTable envOk emptyWorld
        (some (mkEvent ["<b>draft"] (some "a&b")))).effects
      = [notificationText (some (js "<b>draft")) (some (js "<b>draft")) (js "a&b")
          [js "<b>draft"]]
      ∧ js "Mint: <code><b>draft</code>" <:+: notificationText (some (js "<b>draft"))
          (some (js "<b>draft")) (js "a&b") [js "<b>draft"]
      ∧ js "Tx: <code>a&b</code>" <:+: notificationText (some (js "<b>draft"))
          (some (js "<b>draft")) (js "a&b") [js "<b>draft"]
      ∧ markupOf (notificationText (some (js "<b>draft")) (some (js "<b>draft")) (js "a&b")
          [js "<b>draft"]) ≠ templateMarkup := by
  refine ⟨by decide, by decide, by decide, ?_⟩
  rw [templateMarkup_eq, markupOf_notificationText]
  decide

/-- C8, amended: for every matching event whose `INSERT` succeeds, the text passed to
`sendTelegram` is the fixed template with the mint address (the first matching
address), the pool address (the first address), the signature and the comma-joined
matched list inserted as they are, without escaping; every markup character of a
field is a markup character of the text, and the markup of the text is that of the
fixed template when no field holds `<`, `>` or `&`. -/
theorem notification_text_spec (T : CaseTable) (env : Env) (w : World) (obj : StreamEvent)
    (accounts : List JSString) (hacc : extractAccounts obj = some accounts)
    (hm : ∃ a, a ∈ accounts ∧ DRAFT_SUFFIX_REGEX.test T a = true)
    (hok : env.insertOk w.effects.length = true) :
    ∃ mint pool text,
      accounts.find? (DRAFT_SUFFIX_REGEX.test T) = some mint
      ∧ accounts.head? = some pool
      ∧ sendsOf (handleInstruction T env w (some obj)).effects = sendsOf w.effects ++ [text]
      ∧ text = js "🔥 <b>Новый DBC токен</b>\n\nMint: <code>" ++ mint
            ++ js "</code>\nPool: <code>" ++ pool
            ++ js "</code>\nTx: <code>" ++ (obj.Transaction.bind (·.Signature)).getD (js "")
            ++ js "</code>\nMatchedSuffixes: <code>"
            ++ join (js ",") (accounts.filter (DRAFT_SUFFIX_REGEX.test T))
            ++ js "</code>"
      ∧ markupOf text
        = [60, 62, 60, 62, 60, 62] ++ markupOf mint ++ [60, 62, 60, 62]
          ++ markupOf pool ++ [60, 62, 60, 62]
          ++ markupOf ((obj.Transaction.bind (·.Signature)).getD (js "")) ++ [60, 62, 60, 62]
          ++ markupOf (join (js ",") (accounts.filter (DRAFT_SUFFIX_REGEX.test T)))
          ++ [60, 62]
      ∧ (markupOf mint = [] → markupOf pool = [] →
          markupOf ((obj.Transaction.bind (·.Signature)).getD (js "")) = [] →
          markupOf (join (js ",") (accounts.filter (DRAFT_SUFFIX_REGEX.test T))) = [] →
          markupOf text = templateMarkup) := by
  have hne := (matchedAddresses_ne_nil_iff T accounts).2 hm
  obtain ⟨a, ha, hta⟩ := hm
  have hfind : ∃ mint, accounts.find? (DRAFT_SUFFIX_REGEX.test T) = some mint := by
    cases hf : accounts.find? (DRAFT_SUFFIX_REGEX.test T) with
    | none =>
      rw [List.find?_eq_none] at hf
      exact absurd hta (hf a ha)
    | some mint => exact ⟨mint, rfl⟩
  have hhead : ∃ pool, accounts.head? = some pool := by
    cases accounts with
    | nil => simp at ha
    | cons x xs => exact ⟨x, rfl⟩
  obtain ⟨mint, hmint⟩ := hfind
  obtain ⟨pool, hpool⟩ := hhead
  have htext := textOf_eq T accounts (extractSignature obj)
    (extractAccounts_ne_nil obj accounts hacc)
  rw [hmint, hpool] at htext
  have hmk : markupOf (textOf T accounts (extractSignature obj))
      = [60, 62, 60, 62, 60, 62] ++ markupOf mint ++ [60, 62, 60, 62]
        ++ markupOf pool ++ [60, 62, 60, 62]
        ++ markupOf ((obj.Transaction.bind (·.Signature)).getD (js "")) ++ [60, 62, 60, 62]
        ++ markupOf (join (js ",") (accounts.filter (DRAFT_SUFFIX_REGEX.test T)))
        ++ [60, 62] := by
    rw [htext, markupOf_notificationText, extractSignature_eq]
    rfl
  refine ⟨mint, pool, textOf T accounts (extractSignature obj), hmint, hpool, ?_, ?_, hmk, ?_⟩
  · rw [handleInstruction_sends T env w obj accounts hacc]
    simp only [hok, hne, ne_eq, not_false_eq_true, and_self, if_true]
  · rw [htext, extractSignature_eq]
    rfl
  · intro h1 h2 h3 h4
    rw [hmk, h1, h2, h3, h4, templateMarkup_eq]
    rfl

set_option maxRecDepth 100000 in
/-- The amended C8 at the accounts `Axyz...draft`, `Bpoolabc` with the signature
`5sig` on an accepting store: one text is sent and its markup is the template's. -/
theorem notification_text_spec_witness :
    ∃ text, sendsOf (handleInstruction asciiTable envOk emptyWorld
        (some (mkEvent ["Axyz...draft", "Bpoolabc"] (some "5sig")))).effects = [text]
      ∧ text = js "🔥 <b>Новый DBC токен</b>\n\nMint: <code>Axyz...draft</code>\nPool: <code>Axyz...draft</code>\nTx: <code>5sig</code>\nMatchedSuffixes: <code>Axyz...draft</code>"
      ∧ markupOf text = templateMarkup := by
  have hmatch : ∃ a, a ∈ [js "Axyz...draft", js "Bpoolabc"]
      ∧ DRAFT_SUFFIX_REGEX.test asciiTable a = true :=
    ⟨js "Axyz...draft", by simp, accounts_draft_pool.2.2.2.1⟩
  obtain ⟨mint, pool, text, hmint, hpool, hsend, htext, -, hfree⟩ :=
    notification_text_spec asciiTable envOk emptyWorld
      (mkEvent ["Axyz...draft", "Bpoolabc"] (some "5sig")) _ accounts_draft_pool.2.2.1
      hmatch rfl
  have hfilter : [js "Axyz...draft", js "Bpoolabc"].filter (DRAFT_SUFFIX_REGEX.test asciiTable)
      = [js "Axyz...draft"] := by
    simp [List.filter_cons, accounts_draft_pool.2.2.2.1, accounts_draft_pool.2.2.2.2]
  simp only [List.find?_cons, accounts_draft_pool.2.2.2.1, Option.some.injEq,
    List.head?_cons] at hmint hpool
  subst hmint hpool
  rw [hfilter] at htext hfree
  refine ⟨text, hsend, ?_, hfree (by decide) (by decide) (by decide) (by decide)⟩
  rw [htext]
  decide

/-! ## C10: the subscription callback -/

end Bitquery
